import Mathlib

/-!
Verification development for the email-task-manager backend.

The Python sources under `backend/` are shallowly embedded: each Lean
definition mirrors one Python function (same name where Lean allows it).
Python strings are Lean `String`; Python `None`-or-value is `Option`;
a raised exception is an `Except.error`.  External libraries (the Fernet
cipher, `json.loads`, the OpenAI client, the Gmail wire API) are modelled
as parameters constrained only by their documented contracts; everything
written in this repository is translated line by line.
-/

namespace EmailTaskManager

/-! ### Python string primitives

`pyStrip` models Python `str.strip()` (ASCII whitespace set), and the
`str*` helpers model `startswith`, `endswith`, slicing and `len`. -/

def isPyWs (c : Char) : Bool :=
  c = ' ' || c = '\t' || c = '\n' || c = '\x0d' || c = '\x0b' || c = '\x0c'

def pyStripList (l : List Char) : List Char :=
  ((l.dropWhile isPyWs).reverse.dropWhile isPyWs).reverse

def pyStrip (s : String) : String :=
  ⟨pyStripList s.data⟩

def listStartsWith : List Char → List Char → Bool
  | _, [] => true
  | [], _ :: _ => false
  | c :: cs, p :: ps => c = p && listStartsWith cs ps

def strStartsWith (s p : String) : Bool :=
  listStartsWith s.data p.data

def strEndsWith (s p : String) : Bool :=
  listStartsWith s.data.reverse p.data.reverse

def strDrop (s : String) (n : Nat) : String :=
  ⟨s.data.drop n⟩

def strDropRight (s : String) (n : Nat) : String :=
  ⟨(s.data.reverse.drop n).reverse⟩

def strTake (s : String) (n : Nat) : String :=
  ⟨s.data.take n⟩

def strLen (s : String) : Nat :=
  s.data.length

/-! ### `backend/utils/rate_limiter.py`

`RateLimiter.is_allowed` keeps, per client id, a time-ordered queue of
admission timestamps (a `deque` in a `defaultdict`); it evicts entries
strictly older than `now - window`, denies when the remaining count has
reached `limit`, and appends `now` exactly when it admits.  Time is
modelled as `Int` (the Python code uses `time.time()` floats; every
comparison in the claims is at integer times). -/

structure RateLimiter where
  clients : List (String × List Int)

def RateLimiter.empty : RateLimiter := ⟨[]⟩

def RateLimiter.getQueue (rl : RateLimiter) (clientId : String) : List Int :=
  match rl.clients.find? (fun kv => kv.1 = clientId) with
  | some kv => kv.2
  | none => []

def RateLimiter.setQueue (rl : RateLimiter) (clientId : String) (q : List Int) :
    RateLimiter :=
  if rl.clients.any (fun kv => kv.1 = clientId) then
    ⟨rl.clients.map (fun kv => if kv.1 = clientId then (clientId, q) else kv)⟩
  else
    ⟨rl.clients ++ [(clientId, q)]⟩

/-- The `while ... popleft()` eviction loop: drop leading entries with
timestamp strictly below `now - window`. -/
def evictOld (now window : Int) (q : List Int) : List Int :=
  q.dropWhile (fun ts => ts < now - window)

/-- `RateLimiter.is_allowed`: returns the decision together with the
updated limiter state (the Python method mutates `self.clients`). -/
def RateLimiter.is_allowed (rl : RateLimiter) (clientId : String)
    (limit : Nat) (window : Int) (now : Int) : Bool × RateLimiter :=
  let q := evictOld now window (rl.getQueue clientId)
  if limit ≤ q.length then
    (false, rl.setQueue clientId q)
  else
    (true, rl.setQueue clientId (q ++ [now]))

/-- Run a sequence of calls (same client id, limit, window) at the given
times; returns the list of decisions and the final state. -/
def runCalls (rl : RateLimiter) (clientId : String) (limit : Nat)
    (window : Int) : List Int → List Bool × RateLimiter
  | [] => ([], rl)
  | t :: ts =>
    let r := rl.is_allowed clientId limit window t
    let rest := runCalls r.2 clientId limit window ts
    (r.1 :: rest.1, rest.2)

/-! ### `backend/utils/encryption.py`

The Fernet cipher from the `cryptography` package is external to this
repository; it is modelled abstractly by its documented contract: an
authenticated symmetric cipher whose `decrypt` inverts `encrypt` and
reports failure (wrong key, tampered token) as "no value", with
non-empty ciphertexts.  `TokenEncryption.encrypt_token` /
`decrypt_token` are this repository's wrappers around it. -/

structure Cipher where
  encryptFn : String → String
  decryptFn : String → Option String
  roundtrip : ∀ s : String, decryptFn (encryptFn s) = some s
  encrypt_ne : ∀ s : String, encryptFn s ≠ ""

/-- `TokenEncryption.encrypt_token`: `if not token: return None`, else the
Fernet ciphertext. -/
def encrypt_token (c : Cipher) (token : String) : Option String :=
  if token = "" then none else some (c.encryptFn token)

/-- `TokenEncryption.decrypt_token`: `if not encrypted_token: return None`,
else decrypt, returning `None` when the cipher raises. -/
def decrypt_token (c : Cipher) (encryptedToken : String) : Option String :=
  if encryptedToken = "" then none else c.decryptFn encryptedToken

/-- A concrete cipher instance used to witness theorems quantified over
`Cipher`: prepends a tag on encryption and checks/removes it on
decryption. -/
def tagCipher : Cipher where
  encryptFn s := "#" ++ s
  decryptFn s := if strStartsWith s "#" then some (strDrop s 1) else none
  roundtrip := by
    intro s
    cases s with
    | mk data =>
      simp [strStartsWith, strDrop, listStartsWith, String.instAppend,
        String.append]
  encrypt_ne := by
    intro s h
    have hd := congrArg String.data h
    cases s with
    | mk data => simp [String.instAppend, String.append] at hd

/-! ### `backend/utils/validators.py`

`sanitize_text` HTML-escapes (Python `html.escape`, quote=True) the
stripped text and truncates to `max_length` when given.
`validate_email_content` / `validate_task_data` collect error strings and
raise `ValidationError` (modelled as `Except.error`) when any were
found. -/

def htmlEscapeChar (c : Char) : List Char :=
  if c = '&' then "&amp;".data
  else if c = '<' then "&lt;".data
  else if c = '>' then "&gt;".data
  else if c = '"' then "&quot;".data
  else if c = '\x27' then "&#x27;".data
  else [c]

def html_escape (s : String) : String :=
  ⟨s.data.flatMap htmlEscapeChar⟩

/-- `sanitize_text(text, max_length)`.  Python's `if max_length and ...`
treats `None` and `0` as "no cap". -/
def sanitize_text (text : String) (maxLength : Option Nat) : String :=
  if text = "" then ""
  else
    let sanitized := html_escape (pyStrip text)
    match maxLength with
    | some m => if m ≠ 0 ∧ m < strLen sanitized then strTake sanitized m else sanitized
    | none => sanitized

def validPriorities : List String := ["High", "Medium", "Low"]

def validCategories : List String :=
  ["Follow-up", "Meeting Prep", "Purchase", "General",
   "Review", "Approval", "Schedule", "Research"]

def validate_priority (priority : String) : Bool :=
  validPriorities.contains priority

def validate_category (category : String) : Bool :=
  validCategories.contains category

/-- Python truthiness for an optional string argument (`priority or 'Medium'`). -/
def pyOrDefault (o : Option String) (d : String) : String :=
  match o with
  | none => d
  | some s => if s = "" then d else s

/-- Python truthiness test `if priority and ...`. -/
def pyTruthy (o : Option String) : Bool :=
  match o with
  | none => false
  | some s => s ≠ ""

structure ValidatedContent where
  subject : String
  body : String
  deriving Repr, DecidableEq

structure TaskData where
  description : String
  priority : String
  category : String
  deriving Repr, DecidableEq

/-- `validate_email_content(subject, body)`. -/
def validate_email_content (subject body : String) :
    Except String ValidatedContent :=
  let errs : List String :=
    (if subject = "" ∨ strLen (pyStrip subject) = 0 then
      ["Subject is required"]
     else if 500 < strLen subject then
      ["Subject too long (max 500 characters)"]
     else []) ++
    (if body ≠ "" ∧ 50000 < strLen body then
      ["Email body too long (max 50KB)"]
     else [])
  if errs ≠ [] then .error (String.intercalate "; " errs)
  else .ok { subject := sanitize_text subject (some 500),
             body := if body ≠ "" then sanitize_text body (some 50000) else "" }

/-- `validate_task_data(description, priority, category)`. -/
def validate_task_data (description : String)
    (priority category : Option String) : Except String TaskData :=
  let errs : List String :=
    (if description = "" ∨ strLen (pyStrip description) = 0 then
      ["Task description is required"]
     else if 1000 < strLen description then
      ["Task description too long (max 1000 characters)"]
     else []) ++
    (if pyTruthy priority ∧ ¬ validate_priority (priority.getD "") then
      ["Invalid priority. Must be High, Medium, or Low"]
     else []) ++
    (if pyTruthy category ∧ ¬ validate_category (category.getD "") then
      ["Invalid category"]
     else [])
  if errs ≠ [] then .error (String.intercalate "; " errs)
  else .ok { description := sanitize_text description (some 1000),
             priority := pyOrDefault priority "Medium",
             category := pyOrDefault category "General" }

/-! ### `backend/services/ai_service.py`

`json.loads` is external; its possible results are modelled by `PyVal`
(a string, a list, an object, or any other JSON value), and the parser
itself by a parameter `jsonLoads : String → Option PyVal`, `none` being
`JSONDecodeError`.  `_parse_ai_response` then iterates the value exactly
as the Python loop does; calling `.strip()` on a non-string
`description` raises (`Except.error`), which the surrounding
`except Exception` turns into `[]`. -/

inductive PyVal where
  | str (s : String)
  | list (xs : List PyVal)
  | dict (fields : List (String × PyVal))
  | other
  deriving Repr

structure TaskOut where
  description : String
  priority : String
  category : String
  deriving Repr, DecidableEq

def pyDictHas (fields : List (String × PyVal)) (k : String) : Bool :=
  fields.any (fun kv => kv.1 = k)

def pyDictGet (fields : List (String × PyVal)) (k : String) (dflt : PyVal) :
    PyVal :=
  match fields.find? (fun kv => kv.1 = k) with
  | some kv => kv.2
  | none => dflt

/-- Lines 110–112 of `ai_service.py`: an out-of-enum (or non-string)
priority value becomes `"Medium"`. -/
def clampPriority (v : PyVal) : String :=
  match v with
  | .str s => if validPriorities.contains s then s else "Medium"
  | _ => "Medium"

/-- Lines 114–117: an out-of-enum (or non-string) category value becomes
`"General"`. -/
def clampCategory (v : PyVal) : String :=
  match v with
  | .str s => if validCategories.contains s then s else "General"
  | _ => "General"

/-- One iteration of the validation loop inside `_parse_ai_response`:
`ok none` = candidate skipped, `ok (some t)` = candidate kept,
`error ()` = a raised exception (non-string `description`). -/
def processTask (task : PyVal) : Except Unit (Option TaskOut) :=
  match task with
  | .dict fields =>
    if pyDictHas fields "description" then
      match pyDictGet fields "description" (.str "") with
      | .str d =>
        let d := pyStrip d
        let p := clampPriority (pyDictGet fields "priority" (.str "Medium"))
        let c := clampCategory (pyDictGet fields "category" (.str "General"))
        if d ≠ "" then .ok (some { description := d, priority := p, category := c })
        else .ok none
      | _ => .error ()
    else .ok none
  | _ => .ok none

/-- The `for task in tasks_data` loop; an exception mid-loop reaches the
outer handler, which returns `[]`. -/
def collectTasks : List PyVal → List TaskOut → List TaskOut
  | [], acc => acc.reverse
  | t :: rest, acc =>
    match processTask t with
    | .error _ => []
    | .ok none => collectTasks rest acc
    | .ok (some x) => collectTasks rest (x :: acc)

/-- The response-text normalization at the top of `_parse_ai_response`:
strip, drop a leading ` ```json `, drop a trailing ` ``` `, strip. -/
def stripFences (t : String) : String :=
  let t := pyStrip t
  let t := if strStartsWith t "```json" then strDrop t 7 else t
  let t := if strEndsWith t "```" then strDropRight t 3 else t
  pyStrip t

/-- `AIService._parse_ai_response(response_text)`. -/
def parse_ai_response (jsonLoads : String → Option PyVal)
    (responseText : String) : List TaskOut :=
  match jsonLoads (stripFences responseText) with
  | none => []
  | some (.list xs) => collectTasks xs []
  | some (.dict _) => []
  | some (.str _) => []
  | some .other => []

/-- `AIService.extract_tasks`: the OpenAI call is a parameter; any
exception it raises is caught and yields `[]`. -/
def extract_tasks (jsonLoads : String → Option PyVal)
    (aiResponse : Except Unit String) : List TaskOut :=
  match aiResponse with
  | .error _ => []
  | .ok text => parse_ai_response jsonLoads text

/-! ### `backend/services/gmail_service.py` — `_extract_body`

A payload part carries decoded body data (`BodyData.text`), carries
bytes that fail base64/utf-8 decoding (`BodyData.malformed`: the decode
raises, the outer `except` returns `""`), or has no `data` field
(`BodyData.absent`: the loop moves on).  `re.sub('<[^<]+?>', '', html)`
is modelled by `stripHtmlTags`: a match is a `<`, then a shortest
non-empty run of non-`<` characters, then `>`. -/

inductive BodyData where
  | absent
  | malformed
  | text (s : String)
  deriving Repr, DecidableEq

structure MsgPart where
  mimeType : String
  body : BodyData
  deriving Repr, DecidableEq

structure MsgPayload where
  parts : Option (List MsgPart)
  body : BodyData
  deriving Repr, DecidableEq

/-- After a candidate `<` and one consumed non-`<` character: scan over
non-`<` characters to the first `>`; `some rest` is the text after the
match. -/
def scanToClose : List Char → Option (List Char)
  | [] => none
  | c :: rest =>
    if c = '>' then some rest
    else if c = '<' then none
    else scanToClose rest

/-- Try to match `[^<]+?>` against the text following a `<`. -/
def scanTag : List Char → Option (List Char)
  | [] => none
  | c :: rest => if c = '<' then none else scanToClose rest

theorem scanToClose_length {l l2 : List Char} (h : scanToClose l = some l2) :
    l2.length < l.length := by
  induction l with
  | nil => simp [scanToClose] at h
  | cons c rest ih =>
    by_cases hc : c = '>'
    · simp [scanToClose, hc] at h
      subst h
      simp
    · by_cases hl : c = '<'
      · simp [scanToClose, hc, hl] at h
      · simp [scanToClose, hc, hl] at h
        exact Nat.lt_trans (ih h) (by simp)

theorem scanTag_length {l l2 : List Char} (h : scanTag l = some l2) :
    l2.length < l.length := by
  cases l with
  | nil => simp [scanTag] at h
  | cons c rest =>
    by_cases hc : c = '<'
    · simp [scanTag, hc] at h
    · simp [scanTag, hc] at h
      exact Nat.lt_trans (scanToClose_length h) (by simp)

/-- `re.sub('<[^<]+?>', '', s)` on the character list, with a fuel
argument for structural recursion.  Each step consumes at least one
character (`scanTag_length`), so fuel `l.length` always suffices and the
out-of-fuel branch is never reached. -/
def stripTagsFuel : Nat → List Char → List Char
  | _, [] => []
  | 0, l => l
  | fuel + 1, c :: rest =>
    if c = '<' then
      match scanTag rest with
      | some rest2 => stripTagsFuel fuel rest2
      | none => c :: stripTagsFuel fuel rest
    else c :: stripTagsFuel fuel rest

def stripTagsList (l : List Char) : List Char :=
  stripTagsFuel l.length l

def stripHtmlTags (s : String) : String :=
  ⟨stripTagsList s.data⟩

/-- `GmailService._extract_body`, multipart loop: return on the first
part whose mime type is `text/plain` or `text/html` and that has a
`data` field (malformed data raises, and the handler returns `""`). -/
def extractFromParts : List MsgPart → String
  | [] => ""
  | p :: rest =>
    if p.mimeType = "text/plain" then
      match p.body with
      | .text s => s
      | .malformed => ""
      | .absent => extractFromParts rest
    else if p.mimeType = "text/html" then
      match p.body with
      | .text s => pyStrip (stripHtmlTags s)
      | .malformed => ""
      | .absent => extractFromParts rest
    else extractFromParts rest

/-- `GmailService._extract_body(payload)`. -/
def extract_body (payload : MsgPayload) : String :=
  match payload.parts with
  | some parts => extractFromParts parts
  | none =>
    match payload.body with
    | .text s => s
    | .malformed => ""
    | .absent => ""

/-! ### `backend/routes/emails.py` — `process_emails`

The SQLAlchemy session is modelled as the committed database plus the
run's pending (flushed but uncommitted) inserts; queries see both.
`db.session.flush()` enforces the schema of `models/email.py`: the
`unique=True` index on `Email.gmail_id` is global (it does not include
`user_id`), so a flush raises `uniqueViolation` when any visible row of
any user already holds the gmail id.  An injected `persistFail`
predicate models any other storage failure at flush time.  An exception
anywhere inside the loop propagates to the route's `except Exception`
handler: `db.session.rollback()` (all pending inserts discarded) and a
generic `500` response whose body is `str(e)`.  A single
`db.session.commit()` runs after the loop.  Timestamps
(`processed_at`, `created_at`) are not modelled; `mark_processed` is
the flip of the `processed` flag. -/

structure EmailData where
  gmail_id : String
  thread_id : Option String
  subject : String
  sender : String
  sender_email : String
  body : String
  snippet : String
  received_at : Int
  deriving Repr, DecidableEq

structure EmailRow where
  id : Nat
  user_id : Nat
  gmail_id : String
  thread_id : Option String
  subject : String
  sender : String
  sender_email : String
  body : String
  snippet : String
  received_at : Int
  processed : Bool
  deriving Repr, DecidableEq

structure TaskRow where
  user_id : Nat
  email_id : Nat
  description : String
  sender : String
  priority : String
  category : String
  deriving Repr, DecidableEq

structure DB where
  nextEmailId : Nat
  emails : List EmailRow
  tasks : List TaskRow
  deriving Repr, DecidableEq

structure Session where
  committed : DB
  pendingEmails : List EmailRow
  pendingTasks : List TaskRow
  deriving Repr, DecidableEq

def Session.visibleEmails (s : Session) : List EmailRow :=
  s.committed.emails ++ s.pendingEmails

def Session.nextId (s : Session) : Nat :=
  s.committed.nextEmailId + s.pendingEmails.length

def Session.commit (s : Session) : DB :=
  { nextEmailId := s.nextId,
    emails := s.committed.emails ++ s.pendingEmails,
    tasks := s.committed.tasks ++ s.pendingTasks }

/-- Exceptions raised by `db.session.flush()`. -/
inductive FlushError where
  | uniqueViolation
  | persistenceFailure
  deriving Repr, DecidableEq

def FlushError.pyStr : FlushError → String
  | .uniqueViolation => "UNIQUE constraint failed: emails.gmail_id"
  | .persistenceFailure => "storage failure"

/-- The `Email(...)` construction of the route (lines 56–66): field by
field, with the `[:255]` / `[:500]` truncations, not yet processed. -/
def mkEmailRow (uid nid : Nat) (e : EmailData) (vc : ValidatedContent) :
    EmailRow :=
  { id := nid, user_id := uid, gmail_id := e.gmail_id,
    thread_id := e.thread_id, subject := vc.subject,
    sender := strTake e.sender 255,
    sender_email := strTake e.sender_email 255,
    body := vc.body, snippet := strTake e.snippet 500,
    received_at := e.received_at, processed := false }

/-- The inner task loop (lines 74–93): each AI candidate is validated
by `validate_task_data`; a `ValidationError` skips it, otherwise a
`Task(...)` row is added. -/
def mkTaskRows (uid eid : Nat) (e : EmailData) (touts : List TaskOut) :
    List TaskRow :=
  touts.filterMap (fun t =>
    match validate_task_data t.description (some t.priority)
        (some t.category) with
    | .ok v => some (TaskRow.mk uid eid v.description (strTake e.sender 255)
        v.priority v.category)
    | .error _ => none)

/-- The session after one message was flushed, its tasks added, and
`mark_processed` called on the ORM object. -/
def insertSession (uid : Nat) (ai : String → String → String → List TaskOut)
    (sess : Session) (e : EmailData) (vc : ValidatedContent) : Session :=
  { sess with
    pendingEmails := sess.pendingEmails ++
      [{ mkEmailRow uid sess.nextId e vc with processed := true }],
    pendingTasks := sess.pendingTasks ++
      mkTaskRows uid sess.nextId e (ai e.subject e.body e.sender) }

/-- The `for email_data in new_emails` loop of `process_emails`.
`ai s b f` stands for `ai_service.extract_tasks(s, b, f)` (a pure
function of the message for a fixed model: the claims quantify over
it). -/
def processLoop (uid : Nat) (ai : String → String → String → List TaskOut)
    (persistFail : EmailRow → Bool) (sess : Session) :
    List EmailData → Except FlushError Session
  | [] => .ok sess
  | e :: rest =>
    if sess.visibleEmails.any
        (fun r => r.gmail_id = e.gmail_id && r.user_id = uid) then
      processLoop uid ai persistFail sess rest
    else
      match validate_email_content e.subject e.body with
      | .error _ => processLoop uid ai persistFail sess rest
      | .ok vc =>
        if sess.visibleEmails.any (fun r => r.gmail_id = e.gmail_id) then
          .error .uniqueViolation
        else if persistFail (mkEmailRow uid sess.nextId e vc) then
          .error .persistenceFailure
        else
          processLoop uid ai persistFail (insertSession uid ai sess e vc) rest

structure HttpResponse where
  status : Nat
  body : List (String × String)
  deriving Repr, DecidableEq

/-- Run-level failures raised before/while fetching (credential build,
Gmail list/get).  `str(e)` of each is its message. -/
inductive RunError where
  | authError (msg : String)
  | providerError (msg : String)
  | genericError (msg : String)
  deriving Repr, DecidableEq

def RunError.pyStr : RunError → String
  | .authError m => m
  | .providerError m => m
  | .genericError m => m

/-- The `process_emails` route: the `@ratelimit` decorator's decision,
the `gmail_connected` guard, the fetch outcome, the per-message loop,
the single commit, and the catch-all `except Exception` that rolls the
session back and answers `500` with `str(e)`. -/
def process_emails (rateAllowed connected : Bool) (uid : Nat)
    (fetch : Except RunError (List EmailData))
    (ai : String → String → String → List TaskOut)
    (persistFail : EmailRow → Bool) (db : DB) : DB × HttpResponse :=
  if !rateAllowed then
    (db, ⟨429, [("error", "Rate limit exceeded"),
                ("message", "Too many requests. Limit: 5 per 300 seconds")]⟩)
  else if !connected then
    (db, ⟨400, [("error", "Gmail not connected")]⟩)
  else
    match fetch with
    | .error e => (db, ⟨500, [("error", e.pyStr)]⟩)
    | .ok msgs =>
      match processLoop uid ai persistFail ⟨db, [], []⟩ msgs with
      | .ok sess =>
        (sess.commit, ⟨200, [("message", "Emails processed successfully")]⟩)
      | .error fe => (db, ⟨500, [("error", fe.pyStr)]⟩)

/-! ### Derived definitions used by the verification below -/

/-- `exceptIsOk e = true` iff `e` carries a value (the call did not raise). -/
def exceptIsOk {ε α : Type} : Except ε α → Bool
  | .ok _ => true
  | .error _ => false

def longDescription : String := ⟨List.replicate 1001 'a'⟩

/-- A part stops `_extract_body`'s loop: mime type `text/plain` or
`text/html` and a `data` field present (possibly undecodable). -/
def partHit (p : MsgPart) : Bool :=
  (p.mimeType = "text/plain" || p.mimeType = "text/html") &&
    !(p.body = BodyData.absent)

/-- What `_extract_body` returns for the part that stopped the loop. -/
def partRender (p : MsgPart) : String :=
  match p.body with
  | .text s => if p.mimeType = "text/plain" then s else pyStrip (stripHtmlTags s)
  | _ => ""

def htmlFirstPayload : MsgPayload :=
  { parts := some [{ mimeType := "text/html", body := .text "<b>H</b>" },
                   { mimeType := "text/plain", body := .text "P" }],
    body := .absent }

/-- The per-candidate composition the route applies to an extraction
output: the `_parse_ai_response` validation step followed by the route's
`validate_task_data` (a `ValidationError` skips the candidate). -/
def extractThenValidate (cand : PyVal) : Option TaskData :=
  match processTask cand with
  | .ok (some t) =>
    match validate_task_data t.description (some t.priority) (some t.category) with
    | .ok v => some v
    | .error _ => none
  | _ => none

/-- The idempotency key: some visible row carries this
`(gmail_id, user_id)` pair (the filter of the route's duplicate check,
line 42). -/
def emailKeyIn (uid : Nat) (g : String) (l : List EmailRow) : Bool :=
  l.any (fun r => r.gmail_id = g && r.user_id = uid)

/-- A minimal valid fetched message, used for concrete runs. -/
def ceMsg (g : String) : EmailData :=
  { gmail_id := g, thread_id := none, subject := "Subject", sender := "Alice",
    sender_email := "alice@example.com", body := "body", snippet := "",
    received_at := 0 }

/-- A persisted row of user 1 holding gmail id `"g"`. -/
def user1Row : EmailRow :=
  { id := 0, user_id := 1, gmail_id := "g", thread_id := none,
    subject := "Subject", sender := "Alice", sender_email := "alice@example.com",
    body := "body", snippet := "", received_at := 0, processed := true }

def dbUser1 : DB := ⟨1, [user1Row], []⟩

/-! ### Lemmas about the string primitives -/

theorem head_dropWhile_false {p : Char → Bool} {l : List Char} {a : Char}
    (h : (l.dropWhile p).head? = some a) : p a = false := by
  induction l with
  | nil => simp [List.dropWhile] at h
  | cons b t ih =>
    rw [List.dropWhile_cons] at h
    by_cases hb : p b
    · simp [hb] at h
      exact ih h
    · simp [hb] at h
      subst h
      simpa using hb

theorem getLast_dropWhile {p : Char → Bool} {l : List Char}
    (h : l.dropWhile p ≠ []) : (l.dropWhile p).getLast? = l.getLast? := by
  induction l with
  | nil => simp [List.dropWhile] at h
  | cons b t ih =>
    rw [List.dropWhile_cons]
    rw [List.dropWhile_cons] at h
    by_cases hb : p b
    · simp only [hb, if_true] at h ⊢
      rw [ih h]
      cases t with
      | nil => simp [List.dropWhile] at h
      | cons c u => simp
    · simp [hb]

theorem dropWhile_suffix (p : Char → Bool) (l : List Char) :
    ∃ k, l.dropWhile p = l.drop k := by
  induction l with
  | nil => exact ⟨0, rfl⟩
  | cons b t ih =>
    by_cases hb : p b
    · obtain ⟨k, hk⟩ := ih
      exact ⟨k + 1, by simp [List.dropWhile_cons, hb, hk]⟩
    · exact ⟨0, by simp [List.dropWhile_cons, hb]⟩

/-- The result of `str.strip()` has no leading whitespace character. -/
theorem pyStripList_head {l : List Char} {a : Char}
    (h : (pyStripList l).head? = some a) : isPyWs a = false := by
  unfold pyStripList at h
  set A := l.dropWhile isPyWs with hA
  have hne : A.reverse.dropWhile isPyWs ≠ [] := by
    intro he
    rw [he] at h
    simp at h
  obtain ⟨k, hk⟩ := dropWhile_suffix isPyWs A.reverse
  rw [List.head?_reverse] at h
  rw [getLast_dropWhile hne] at h
  rw [List.getLast?_reverse] at h
  exact head_dropWhile_false (p := isPyWs) (l := l) (by rw [← hA]; exact h)

/-- The result of `str.strip()` has no trailing whitespace character. -/
theorem pyStripList_getLast {l : List Char} {a : Char}
    (h : (pyStripList l).getLast? = some a) : isPyWs a = false := by
  unfold pyStripList at h
  rw [List.getLast?_reverse] at h
  exact head_dropWhile_false h

theorem dropWhile_eq_self_of_head {p : Char → Bool} {l : List Char}
    (h : ∀ a, l.head? = some a → p a = false) : l.dropWhile p = l := by
  cases l with
  | nil => rfl
  | cons b t => simp [List.dropWhile_cons, h b rfl]

/-- A list whose first and last characters are not whitespace is fixed by
`strip()`. -/
theorem pyStripList_eq_self {l : List Char}
    (h1 : ∀ a, l.head? = some a → isPyWs a = false)
    (h2 : ∀ a, l.getLast? = some a → isPyWs a = false) :
    pyStripList l = l := by
  unfold pyStripList
  rw [dropWhile_eq_self_of_head h1]
  rw [dropWhile_eq_self_of_head (by
    intro a ha
    rw [List.head?_reverse] at ha
    exact h2 a ha)]
  exact l.reverse_reverse

theorem pyStripList_idem (l : List Char) :
    pyStripList (pyStripList l) = pyStripList l :=
  pyStripList_eq_self (fun a ha => pyStripList_head ha)
    (fun a ha => pyStripList_getLast ha)

theorem pyStrip_idem (s : String) : pyStrip (pyStrip s) = pyStrip s := by
  cases s with
  | mk l =>
    show (⟨pyStripList (pyStripList l)⟩ : String) = ⟨pyStripList l⟩
    rw [pyStripList_idem]

theorem string_data_append (a b : String) : (a ++ b).data = a.data ++ b.data :=
  rfl

theorem strLen_eq_zero {s : String} : strLen s = 0 ↔ s = "" := by
  cases s with
  | mk l =>
    constructor
    · intro h
      have hl : l = [] := List.length_eq_zero.mp h
      subst hl
      rfl
    · intro h
      rw [h]
      rfl

theorem listStartsWith_nil (l : List Char) : listStartsWith l [] = true := by
  cases l <;> rfl

theorem listStartsWith_append (p r : List Char) :
    listStartsWith (p ++ r) p = true := by
  induction p with
  | nil => simpa using listStartsWith_nil r
  | cons c t ih => simp [listStartsWith, ih]

/-! ### Lemmas about the rate limiter -/

theorem find_update (l : List (String × List Int)) (k : String) (q : List Int) :
    (l.map (fun kv => if kv.1 = k then (k, q) else kv)).find?
        (fun kv => kv.1 = k) =
      if l.any (fun kv => kv.1 = k) then some (k, q) else none := by
  induction l with
  | nil => rfl
  | cons kv t ih =>
    by_cases hk : kv.1 = k
    · have h1 : (if kv.1 = k then (k, q) else kv) = (k, q) := if_pos hk
      simp only [List.map_cons, h1]
      rw [List.find?_cons_of_pos _ (by simp)]
      simp [List.any_cons, hk]
    · have h1 : (if kv.1 = k then (k, q) else kv) = kv := if_neg hk
      simp only [List.map_cons, h1]
      rw [List.find?_cons_of_neg _ (by simp [hk])]
      rw [ih]
      have hd : decide (kv.1 = k) = false := decide_eq_false hk
      rw [List.any_cons, hd, Bool.false_or]

theorem find_append_single (l : List (String × List Int)) (k : String)
    (q : List Int) (h : l.any (fun kv => kv.1 = k) = false) :
    (l ++ [(k, q)]).find? (fun kv => kv.1 = k) = some (k, q) := by
  induction l with
  | nil =>
    rw [List.nil_append]
    exact List.find?_cons_of_pos _ (by simp)
  | cons kv t ih =>
    rw [List.any_cons, Bool.or_eq_false_iff] at h
    rw [List.cons_append, List.find?_cons_of_neg _ (by simpa using h.1)]
    exact ih h.2

theorem getQueue_setQueue (rl : RateLimiter) (k : String) (q : List Int) :
    (rl.setQueue k q).getQueue k = q := by
  unfold RateLimiter.setQueue RateLimiter.getQueue
  by_cases h : rl.clients.any (fun kv => kv.1 = k)
  · simp only [h, if_true]
    rw [find_update]
    simp [h]
  · rw [Bool.not_eq_true] at h
    simp only [h, Bool.false_eq_true, if_false]
    rw [find_append_single rl.clients k q h]

theorem dropWhile_lt_eq_filter (c : Int) (q : List Int)
    (hq : List.Sorted (· ≤ ·) q) :
    q.dropWhile (fun ts => ts < c) = q.filter (fun ts => c ≤ ts) := by
  induction q with
  | nil => rfl
  | cons a t ih =>
    rw [List.sorted_cons] at hq
    by_cases ha : a < c
    · have hac : ¬ c ≤ a := by omega
      simp [List.dropWhile_cons, List.filter_cons, ha, hac, ih hq.2]
    · have hac : c ≤ a := by omega
      simp only [List.dropWhile_cons, List.filter_cons]
      simp only [decide_eq_true_eq, ha, if_false, hac, decide_True, if_true]
      congr 1
      symm
      rw [List.filter_eq_self]
      intro x hx
      have := hq.1 x hx
      simp only [decide_eq_true_eq]
      omega

/-- C3: the gate is a sliding window over admission timestamps: with
limit 5 and window 300, exactly 5 of 10 calls at t = 0 are let through
and an 11th call at t = 301 for the same key is let through; in
general, for a time-ordered queue, each call evicts exactly the entries
older than `now - window`, answers `true` iff the remaining count is
below the limit, and records `now` only on a `true` answer. -/
theorem c3_rate_gate_sliding_window :
    ((runCalls RateLimiter.empty "user_1" 5 300 (List.replicate 10 0)).1.count
        true = 5)
    ∧ ((runCalls RateLimiter.empty "user_1" 5 300
          (List.replicate 10 0 ++ [301])).1 =
        List.replicate 5 true ++ List.replicate 5 false ++ [true])
    ∧ (∀ (rl : RateLimiter) (k : String) (limit : Nat) (window now : Int),
        List.Sorted (· ≤ ·) (rl.getQueue k) →
        evictOld now window (rl.getQueue k) =
          (rl.getQueue k).filter (fun ts => now - window ≤ ts)
        ∧ ((rl.is_allowed k limit window now).1 = true ↔
            (evictOld now window (rl.getQueue k)).length < limit)
        ∧ ((rl.is_allowed k limit window now).2.getQueue k =
            if (evictOld now window (rl.getQueue k)).length < limit
            then evictOld now window (rl.getQueue k) ++ [now]
            else evictOld now window (rl.getQueue k))) := by
  refine ⟨by decide, by decide, ?_⟩
  intro rl k limit window now hsorted
  refine ⟨dropWhile_lt_eq_filter _ _ hsorted, ?_, ?_⟩
  · unfold RateLimiter.is_allowed
    by_cases h : limit ≤ (evictOld now window (rl.getQueue k)).length
    · simp only [h, if_true]
      constructor
      · intro hfalse
        exact absurd hfalse (by simp)
      · intro hlt
        omega
    · simp only [h, if_false]
      simp only [true_iff]
      omega
  · unfold RateLimiter.is_allowed
    by_cases h : limit ≤ (evictOld now window (rl.getQueue k)).length
    · have h2 : ¬ (evictOld now window (rl.getQueue k)).length < limit := by omega
      simp only [h, if_true, h2, if_false]
      exact getQueue_setQueue rl k _
    · have h2 : (evictOld now window (rl.getQueue k)).length < limit := by omega
      simp only [h, if_false, h2, if_true]
      exact getQueue_setQueue rl k _

/-- Witness for C3: a limiter whose queue for `"user_1"` holds five
admissions at t = 0 evicts all of them at t = 301, answers `true`, and
records 301. -/
theorem c3_rate_gate_witness :
    evictOld 301 300 ((RateLimiter.mk [("user_1", [0, 0, 0, 0, 0])]).getQueue
        "user_1") = []
    ∧ ((RateLimiter.mk [("user_1", [0, 0, 0, 0, 0])]).is_allowed "user_1" 5 300
        301).1 = true := by
  have h := c3_rate_gate_sliding_window.2.2
    (RateLimiter.mk [("user_1", [0, 0, 0, 0, 0])]) "user_1" 5 300 301
    (by decide)
  refine ⟨?_, ?_⟩
  · rw [h.1]
    decide
  · rw [h.2.1]
    decide

/-- C4: decrypting the encryption of any non-empty token returns that
token, and a ciphertext the cipher cannot decrypt (wrong key, tampered)
yields `none` from `decrypt_token` rather than an exception. -/
theorem c4_encryption_roundtrip :
    (∀ (c : Cipher) (s : String), s ≠ "" →
      (encrypt_token c s).bind (decrypt_token c) = some s)
    ∧ (∀ (c : Cipher) (ct : String), c.decryptFn ct = none →
      decrypt_token c ct = none) := by
  constructor
  · intro c s hs
    simp [encrypt_token, decrypt_token, hs, c.encrypt_ne s, c.roundtrip s]
  · intro c ct h
    by_cases hct : ct = "" <;> simp [decrypt_token, hct, h]

/-- Witness for C4 at the concrete `tagCipher` and token `"tok"`;
`"xx"` is a corrupted ciphertext (no `"#"` tag). -/
theorem c4_encryption_roundtrip_witness :
    (encrypt_token tagCipher "tok").bind (decrypt_token tagCipher) = some "tok"
    ∧ decrypt_token tagCipher "xx" = none := by
  refine ⟨c4_encryption_roundtrip.1 tagCipher "tok" (by decide),
    c4_encryption_roundtrip.2 tagCipher "xx" ?_⟩
  show (if strStartsWith "xx" "#" then some (strDrop "xx" 1) else none) = none
  decide

/-! ### C6 — over-long task descriptions -/

/-- The first error branch of `validate_task_data`: a description over
the 1000-character cap always raises `ValidationError`. -/
theorem validate_task_data_rejects_long (d : String) (p c : Option String)
    (hlen : 1000 < strLen d) :
    exceptIsOk (validate_task_data d p c) = false := by
  by_cases hC1 : d = "" ∨ strLen (pyStrip d) = 0
  · simp [validate_task_data, hC1, exceptIsOk]
  · simp [validate_task_data, hC1, hlen, exceptIsOk]

/-- The accepting branch of `validate_task_data`: an in-cap, non-blank
description with valid-or-absent priority/category returns the sanitized
description and the defaulted enum fields. -/
theorem validate_task_data_accepts (d : String) (p c : Option String)
    (hlen : strLen d ≤ 1000) (hne : pyStrip d ≠ "")
    (hp : pyTruthy p = true → validate_priority (p.getD "") = true)
    (hc : pyTruthy c = true → validate_category (c.getD "") = true) :
    validate_task_data d p c =
      .ok ⟨sanitize_text d (some 1000), pyOrDefault p "Medium",
           pyOrDefault c "General"⟩ := by
  have hC1 : ¬ (d = "" ∨ strLen (pyStrip d) = 0) := by
    rintro (h1 | h2)
    · exact hne (by rw [h1]; rfl)
    · exact hne (strLen_eq_zero.mp h2)
  have hC2 : ¬ 1000 < strLen d := by omega
  have hB2 : ¬ (pyTruthy p = true ∧ ¬ validate_priority (p.getD "") = true) := by
    rintro ⟨hx, hy⟩
    exact hy (hp hx)
  have hB3 : ¬ (pyTruthy c = true ∧ ¬ validate_category (c.getD "") = true) := by
    rintro ⟨hx, hy⟩
    exact hy (hc hx)
  simp [validate_task_data, hC1, hC2, hB2, hB3]
  exact ⟨hp, hc⟩

set_option maxRecDepth 20000 in
/-- C6 counterexample: a description exceeding the 1000-character cap is
rejected by `validate_task_data` with a `ValidationError` (the route then
skips the candidate), not truncated and persisted as the claim states. -/
theorem c6_counterexample :
    validate_task_data longDescription (some "High") (some "General") =
      .error "Task description too long (max 1000 characters)" := by
  rfl

/-- C6 amended: a candidate whose raw description exceeds the cap is
rejected (never persisted); only an in-cap, non-blank description is
accepted, and then the stored description is `sanitize_text(d, 1000)` —
the HTML-escaped text truncated to the cap, so truncation applies only
when escaping pushes an in-cap description over the cap. -/
theorem c6_amended_overlong_rejected :
    (∀ (d : String) (p c : Option String), 1000 < strLen d →
      exceptIsOk (validate_task_data d p c) = false)
    ∧ (∀ (d : String) (p c : Option String),
      strLen d ≤ 1000 → pyStrip d ≠ "" →
      (pyTruthy p = true → validate_priority (p.getD "") = true) →
      (pyTruthy c = true → validate_category (c.getD "") = true) →
      validate_task_data d p c =
        .ok ⟨sanitize_text d (some 1000), pyOrDefault p "Medium",
             pyOrDefault c "General"⟩) := by
  exact ⟨validate_task_data_rejects_long, validate_task_data_accepts⟩

set_option maxRecDepth 20000 in
/-- Witness for C6 amended: the 1001-character description is rejected;
a short description passes through unaltered with defaulted category. -/
theorem c6_amended_witness :
    exceptIsOk (validate_task_data longDescription none none) = false
    ∧ validate_task_data "Send the Q3 report" (some "High") none =
        .ok ⟨"Send the Q3 report", "High", "General"⟩ := by
  have hlong : strLen longDescription = 1001 := by
    simp [longDescription, strLen]
  refine ⟨c6_amended_overlong_rejected.1 longDescription none none (by omega),
    ?_⟩
  have h := c6_amended_overlong_rejected.2 "Send the Q3 report" (some "High")
    none (by decide) (by decide) (by decide) (by decide)
  rw [h]
  rfl

/-! ### C7 — body extraction -/

/-- C7 counterexample: a multipart payload whose HTML part precedes its
plain-text part yields the stripped HTML (`"H"`), not the decoded
plain-text part (`"P"`): the code takes the first matching part in
payload order, it does not prefer plain text. -/
theorem c7_counterexample :
    extract_body htmlFirstPayload = "H" ∧ extract_body htmlFirstPayload ≠ "P" := by
  constructor
  · rfl
  · intro hP
    have hH : extract_body htmlFirstPayload = "H" := rfl
    rw [hH] at hP
    exact absurd hP (by decide)

theorem extractFromParts_skip {q : MsgPart} (l : List MsgPart)
    (h : partHit q = false) : extractFromParts (q :: l) = extractFromParts l := by
  unfold partHit at h
  by_cases hp : q.mimeType = "text/plain"
  · simp only [hp, decide_True, Bool.true_or, Bool.true_and] at h
    have hb : q.body = BodyData.absent := by
      cases hq : q.body <;> simp [hq] at h ⊢
    simp [extractFromParts, hp, hb]
  · by_cases hh : q.mimeType = "text/html"
    · simp only [hh, decide_True, Bool.or_true, Bool.true_and] at h
      have hb : q.body = BodyData.absent := by
        cases hq : q.body <;> simp [hq] at h ⊢
      simp [extractFromParts, hp, hh, hb]
    · simp [extractFromParts, hp, hh]

theorem extractFromParts_hit {p : MsgPart} (l : List MsgPart)
    (h : partHit p = true) : extractFromParts (p :: l) = partRender p := by
  unfold partHit at h
  by_cases hp : p.mimeType = "text/plain"
  · cases hb : p.body with
    | absent => simp [hb] at h
    | malformed => simp [extractFromParts, partRender, hp, hb]
    | text s => simp [extractFromParts, partRender, hp, hb]
  · by_cases hh : p.mimeType = "text/html"
    · cases hb : p.body with
      | absent => simp [hb] at h
      | malformed => simp [extractFromParts, partRender, hp, hh, hb]
      | text s => simp [extractFromParts, partRender, hp, hh, hb]
    · simp [hp, hh] at h

/-- C7 amended: `_extract_body` scans the parts in payload order and
returns the rendering of the first part with a plain-text or HTML mime
type and a `data` field (plain text decoded as-is, HTML tag-stripped,
undecodable data giving `""`); when no part qualifies it returns `""`,
and a single-part payload returns its own data or `""` — never an
error. -/
theorem c7_amended_first_match_body :
    (∀ (pre : List MsgPart) (p : MsgPart) (rest : List MsgPart) (b : BodyData),
      (∀ q ∈ pre, partHit q = false) → partHit p = true →
      extract_body ⟨some (pre ++ p :: rest), b⟩ = partRender p)
    ∧ (∀ (parts : List MsgPart) (b : BodyData),
      (∀ q ∈ parts, partHit q = false) → extract_body ⟨some parts, b⟩ = "")
    ∧ extract_body ⟨none, .absent⟩ = ""
    ∧ extract_body ⟨none, .malformed⟩ = ""
    ∧ (∀ s, extract_body ⟨none, .text s⟩ = s) := by
  refine ⟨?_, ?_, rfl, rfl, fun s => rfl⟩
  · intro pre p rest b hpre hp
    show extractFromParts (pre ++ p :: rest) = partRender p
    induction pre with
    | nil => exact extractFromParts_hit rest hp
    | cons q t ih =>
      rw [List.cons_append, extractFromParts_skip _ (hpre q (by simp))]
      exact ih (fun r hr => hpre r (by simp [hr]))
  · intro parts b hparts
    show extractFromParts parts = ""
    induction parts with
    | nil => rfl
    | cons q t ih =>
      rw [extractFromParts_skip _ (hparts q (by simp))]
      exact ih (fun r hr => hparts r (by simp [hr]))

/-- Witness for C7 amended: an irrelevant part is skipped and the plain
part after it is returned; a payload with only non-text parts yields "". -/
theorem c7_amended_witness :
    extract_body ⟨some [⟨"image/png", BodyData.text "x"⟩,
        ⟨"text/plain", BodyData.text "P"⟩], BodyData.absent⟩ = "P"
    ∧ extract_body ⟨some [⟨"image/png", BodyData.text "x"⟩], BodyData.absent⟩
        = "" := by
  constructor
  · have h := c7_amended_first_match_body.1 [⟨"image/png", BodyData.text "x"⟩]
      ⟨"text/plain", BodyData.text "P"⟩ [] BodyData.absent (by decide) (by decide)
    exact h
  · exact c7_amended_first_match_body.2.1 [⟨"image/png", BodyData.text "x"⟩]
      BodyData.absent (by decide)

/-! ### C8 — defensive AI-response parsing -/

theorem pyStrip_fenced (s : String) :
    pyStrip ("```json" ++ s ++ "```") = "```json" ++ s ++ "```" := by
  cases s with
  | mk l =>
    have hdata : ("```json" ++ String.mk l ++ "```").data =
        '`' :: '`' :: '`' :: 'j' :: 's' :: 'o' :: 'n' :: (l ++ ['`', '`', '`']) :=
      rfl
    show (⟨pyStripList (("```json" ++ String.mk l ++ "```").data)⟩ : String) = _
    rw [pyStripList_eq_self]
    · intro a ha
      rw [hdata] at ha
      simp only [List.head?_cons, Option.some.injEq] at ha
      subst ha
      decide
    · intro a ha
      have hsplit : ("```json" ++ String.mk l ++ "```").data =
          ("```json".data ++ l) ++ "```".data := rfl
      rw [hsplit, List.getLast?_append_of_ne_nil _ (by decide)] at ha
      simp only [show ("```".data.getLast? = some '`') from rfl,
        Option.some.injEq] at ha
      subst ha
      decide

theorem fence_startsWith (s : String) :
    strStartsWith ("```json" ++ s ++ "```") "```json" = true := by
  cases s with
  | mk l =>
    show listStartsWith (("```json".data ++ l) ++ "```".data) "```json".data = true
    rw [List.append_assoc]
    exact listStartsWith_append _ _

theorem strDrop_fence (s : String) :
    strDrop ("```json" ++ s ++ "```") 7 = s ++ "```" := by
  cases s with
  | mk l => rfl

theorem strEndsWith_triple (s : String) :
    strEndsWith (s ++ "```") "```" = true := by
  cases s with
  | mk l =>
    show listStartsWith ((l ++ "```".data).reverse) ("```".data.reverse) = true
    rw [List.reverse_append]
    exact listStartsWith_append _ _

theorem strDropRight_triple (s : String) :
    strDropRight (s ++ "```") 3 = s := by
  cases s with
  | mk l =>
    show (⟨(((l ++ "```".data).reverse).drop 3).reverse⟩ : String) = ⟨l⟩
    rw [List.reverse_append]
    show (⟨((['`', '`', '`'] ++ l.reverse).drop 3).reverse⟩ : String) = ⟨l⟩
    show (⟨l.reverse.reverse⟩ : String) = ⟨l⟩
    rw [List.reverse_reverse]

theorem stripFences_fenced (s : String)
    (h1 : strStartsWith (pyStrip s) "```json" = false)
    (h2 : strEndsWith (pyStrip s) "```" = false) :
    stripFences ("```json" ++ s ++ "```") = stripFences s := by
  unfold stripFences
  simp [pyStrip_fenced, fence_startsWith, strDrop_fence, strEndsWith_triple,
    strDropRight_triple, h1, h2, pyStrip_idem]

/-- C8: `_parse_ai_response` strips an optional leading ` ```json ` and
trailing ` ``` ` fence before parsing, and any response the JSON parser
rejects yields the empty task list instead of an exception. -/
theorem c8_parse_defensive :
    (∀ (jsonLoads : String → Option PyVal) (text : String),
      jsonLoads (stripFences text) = none →
      parse_ai_response jsonLoads text = [])
    ∧ (∀ (jsonLoads : String → Option PyVal) (s : String),
      strStartsWith (pyStrip s) "```json" = false →
      strEndsWith (pyStrip s) "```" = false →
      parse_ai_response jsonLoads ("```json" ++ s ++ "```") =
        parse_ai_response jsonLoads s) := by
  constructor
  · intro jl text h
    unfold parse_ai_response
    rw [h]
  · intro jl s h1 h2
    unfold parse_ai_response
    rw [stripFences_fenced s h1 h2]

/-- Witness for C8: a parser rejecting everything gives `[]`, and a
fenced empty array parses like the bare text. -/
theorem c8_parse_defensive_witness :
    parse_ai_response (fun _ => none) "not json at all" = []
    ∧ parse_ai_response (fun t => if t = "[]" then some (.list []) else none)
        ("```json" ++ "[]" ++ "```") =
      parse_ai_response (fun t => if t = "[]" then some (.list []) else none)
        "[]" :=
  ⟨c8_parse_defensive.1 _ "not json at all" rfl,
   c8_parse_defensive.2 _ "[]" (by decide) (by decide)⟩

/-! ### C5 — per-candidate clamping -/

theorem clampPriority_mem (v : PyVal) :
    validPriorities.contains (clampPriority v) = true := by
  cases v with
  | str s =>
    show validPriorities.contains
      (if validPriorities.contains s = true then s else "Medium") = true
    by_cases hs : validPriorities.contains s = true
    · rw [if_pos hs]
      exact hs
    · rw [if_neg hs]
      rfl
  | list xs => rfl
  | dict fields => rfl
  | other => rfl

theorem clampCategory_mem (v : PyVal) :
    validCategories.contains (clampCategory v) = true := by
  cases v with
  | str s =>
    show validCategories.contains
      (if validCategories.contains s = true then s else "General") = true
    by_cases hs : validCategories.contains s = true
    · rw [if_pos hs]
      exact hs
    · rw [if_neg hs]
      rfl
  | list xs => rfl
  | dict fields => rfl
  | other => rfl

/-- Every candidate that survives the `_parse_ai_response` loop has an
in-enum priority, an in-enum category, and a non-blank (stripped)
description. -/
theorem processTask_ok {x : PyVal} {t : TaskOut}
    (h : processTask x = .ok (some t)) :
    validPriorities.contains t.priority = true ∧
    validCategories.contains t.category = true ∧
    t.description ≠ "" ∧ pyStrip t.description = t.description := by
  cases x with
  | str s =>
    have h2 : (Except.ok none : Except Unit (Option TaskOut)) = .ok (some t) := h
    simp at h2
  | list xs =>
    have h2 : (Except.ok none : Except Unit (Option TaskOut)) = .ok (some t) := h
    simp at h2
  | other =>
    have h2 : (Except.ok none : Except Unit (Option TaskOut)) = .ok (some t) := h
    simp at h2
  | dict fields =>
    replace h : (if pyDictHas fields "description" = true then
        (match pyDictGet fields "description" (.str "") with
         | PyVal.str d =>
            if pyStrip d ≠ "" then
              Except.ok (some (TaskOut.mk (pyStrip d)
                (clampPriority (pyDictGet fields "priority" (.str "Medium")))
                (clampCategory (pyDictGet fields "category" (.str "General")))))
            else Except.ok none
         | _ => Except.error ())
        else Except.ok none) = Except.ok (some t) := h
    split at h
    · split at h
      · split at h
        · simp only [Except.ok.injEq, Option.some.injEq] at h
          subst h
          rename_i d _ hne
          exact ⟨clampPriority_mem _, clampCategory_mem _, hne, pyStrip_idem d⟩
        · simp at h
      · simp at h
    · simp at h

theorem collectTasks_mem {P : TaskOut → Prop}
    (hP : ∀ (x : PyVal) (t : TaskOut), processTask x = .ok (some t) → P t) :
    ∀ (xs : List PyVal) (acc : List TaskOut),
      (∀ a ∈ acc, P a) → ∀ t ∈ collectTasks xs acc, P t := by
  intro xs
  induction xs with
  | nil =>
    intro acc hacc t ht
    simp only [collectTasks, List.mem_reverse] at ht
    exact hacc t ht
  | cons x rest ih =>
    intro acc hacc t ht
    simp only [collectTasks] at ht
    cases hx : processTask x with
    | error e =>
      rw [hx] at ht
      simp at ht
    | ok o =>
      cases o with
      | none =>
        rw [hx] at ht
        exact ih acc hacc t ht
      | some y =>
        rw [hx] at ht
        refine ih (y :: acc) ?_ t ht
        intro a ha
        cases List.mem_cons.mp ha with
        | inl hay => exact hay ▸ hP x y hx
        | inr haa => exact hacc a haa

/-- C5: every task the extraction stage emits has an in-enum priority
and category and a non-blank description; a candidate with an
out-of-enum priority and category is persisted with the defaults
`"Medium"` / `"General"` after the route's validation; a candidate whose
description strips to blank is dropped and never persisted. -/
theorem c5_candidate_clamping :
    (∀ (jsonLoads : String → Option PyVal) (text : String),
      ∀ t ∈ parse_ai_response jsonLoads text,
        validPriorities.contains t.priority = true ∧
        validCategories.contains t.category = true ∧
        t.description ≠ "")
    ∧ (∀ (d p c : String), pyStrip d ≠ "" → strLen (pyStrip d) ≤ 1000 →
      validPriorities.contains p = false → validCategories.contains c = false →
      extractThenValidate (.dict [("description", .str d), ("priority", .str p),
          ("category", .str c)]) =
        some ⟨sanitize_text (pyStrip d) (some 1000), "Medium", "General"⟩)
    ∧ (∀ (d : String) (p c : PyVal), pyStrip d = "" →
      extractThenValidate (.dict [("description", .str d), ("priority", p),
          ("category", c)]) = none) := by
  refine ⟨?_, ?_, ?_⟩
  · intro jl text t ht
    unfold parse_ai_response at ht
    cases hjl : jl (stripFences text) with
    | none => rw [hjl] at ht; simp at ht
    | some v =>
      rw [hjl] at ht
      cases v with
      | list xs =>
        refine collectTasks_mem (P := fun a =>
            validPriorities.contains a.priority = true ∧
            validCategories.contains a.category = true ∧ a.description ≠ "")
          (fun x y hy => ?_) xs [] (by simp) t ht
        obtain ⟨h1, h2, h3, _⟩ := processTask_ok hy
        exact ⟨h1, h2, h3⟩
      | str s => simp at ht
      | dict fs => simp at ht
      | other => simp at ht
  · intro d p c hne hlen hp hc
    have hpt : processTask (.dict [("description", PyVal.str d),
        ("priority", PyVal.str p), ("category", PyVal.str c)]) =
        if pyStrip d ≠ "" then
          .ok (some ⟨pyStrip d, clampPriority (.str p), clampCategory (.str c)⟩)
        else .ok none := rfl
    unfold extractThenValidate
    rw [hpt, if_pos hne]
    have hcp : clampPriority (.str p) = "Medium" := by
      show (if validPriorities.contains p = true then p else "Medium") = "Medium"
      rw [if_neg (by rw [hp]; exact Bool.false_ne_true)]
    have hcc : clampCategory (.str c) = "General" := by
      show (if validCategories.contains c = true then c else "General") = "General"
      rw [if_neg (by rw [hc]; exact Bool.false_ne_true)]
    simp only [hcp, hcc]
    show (match validate_task_data (pyStrip d) (some "Medium")
          (some "General") with
        | Except.ok v => some v
        | Except.error _ => none) =
      some ⟨sanitize_text (pyStrip d) (some 1000), "Medium", "General"⟩
    rw [validate_task_data_accepts (pyStrip d) (some "Medium") (some "General")
      hlen (by rw [pyStrip_idem]; exact hne)
      (fun _ => by rfl) (fun _ => by rfl)]
    rfl
  · intro d p c hblank
    have hpt : processTask (.dict [("description", PyVal.str d),
        ("priority", p), ("category", c)]) =
        if pyStrip d ≠ "" then
          .ok (some ⟨pyStrip d, clampPriority p, clampCategory c⟩)
        else .ok none := rfl
    unfold extractThenValidate
    rw [hpt, if_neg (by simpa using hblank)]

/-- Witness for C5: an `"Urgent"`/`"Stuff"` candidate is persisted with
`"Medium"`/`"General"` and the stripped description; a blank description
is dropped. -/
theorem c5_candidate_clamping_witness :
    extractThenValidate (.dict [("description", .str " Reply to Jane "),
        ("priority", .str "Urgent"), ("category", .str "Stuff")]) =
      some ⟨"Reply to Jane", "Medium", "General"⟩
    ∧ extractThenValidate (.dict [("description", .str "   "),
        ("priority", .str "High"), ("category", .str "Review")]) = none := by
  constructor
  · have h := c5_candidate_clamping.2.1 " Reply to Jane " "Urgent" "Stuff"
      (by decide) (by decide) (by decide) (by decide)
    rw [h]
    rfl
  · exact c5_candidate_clamping.2.2 "   " (.str "High") (.str "Review")
      (by decide)

/-! ### C9 — surfacing of run-level errors -/

/-- C9 counterexample: an `AuthError` raised while building the Gmail
client and any other exception produce byte-identical responses — a
generic HTTP 500 whose body is just `str(e)` — so the caller receives no
distinguishable, actionable kind and no "reconnect required" signal. -/
theorem c9_counterexample :
    process_emails true true 1 (.error (.authError "boom")) (fun _ _ _ => [])
        (fun _ => false) ⟨0, [], []⟩ =
      process_emails true true 1 (.error (.genericError "boom"))
        (fun _ _ _ => []) (fun _ => false) ⟨0, [], []⟩
    ∧ (process_emails true true 1 (.error (.authError "boom"))
        (fun _ _ _ => []) (fun _ => false) ⟨0, [], []⟩).2 =
      ⟨500, [("error", "boom")]⟩ :=
  ⟨rfl, rfl⟩

/-- C9 amended: only the rate-limit rejection (HTTP 429, distinct body)
and the not-connected guard (HTTP 400) are distinguishable; every
exception raised during fetch — auth and provider errors included — is
caught by the catch-all and surfaced as HTTP 500 with the raw exception
message as its only content. -/
theorem c9_amended_error_surfacing :
    (∀ (uid : Nat) (fetch : Except RunError (List EmailData)) ai pf (db : DB),
      process_emails false true uid fetch ai pf db =
        (db, ⟨429, [("error", "Rate limit exceeded"),
          ("message", "Too many requests. Limit: 5 per 300 seconds")]⟩))
    ∧ (∀ (uid : Nat) (fetch : Except RunError (List EmailData)) ai pf (db : DB),
      process_emails true false uid fetch ai pf db =
        (db, ⟨400, [("error", "Gmail not connected")]⟩))
    ∧ (∀ (uid : Nat) (e : RunError) ai pf (db : DB),
      process_emails true true uid (.error e) ai pf db =
        (db, ⟨500, [("error", e.pyStr)]⟩)) :=
  ⟨fun _ _ _ _ _ => rfl, fun _ _ _ _ _ => rfl, fun _ _ _ _ _ => rfl⟩

/-! ### The ingestion loop: step equation and invariants -/

theorem processLoop_cons (uid : Nat) (ai : String → String → String → List TaskOut)
    (pf : EmailRow → Bool) (sess : Session) (e : EmailData)
    (rest : List EmailData) :
    processLoop uid ai pf sess (e :: rest) =
      if sess.visibleEmails.any
          (fun r => r.gmail_id = e.gmail_id && r.user_id = uid) then
        processLoop uid ai pf sess rest
      else
        match validate_email_content e.subject e.body with
        | .error _ => processLoop uid ai pf sess rest
        | .ok vc =>
          if sess.visibleEmails.any (fun r => r.gmail_id = e.gmail_id) then
            .error .uniqueViolation
          else if pf (mkEmailRow uid sess.nextId e vc) then
            .error .persistenceFailure
          else
            processLoop uid ai pf (insertSession uid ai sess e vc) rest := rfl

/-- A successful loop run only appends pending rows: the committed part
of the session is untouched and the pending e-mail list only grows. -/
theorem processLoop_extends {uid : Nat}
    {ai : String → String → String → List TaskOut} {pf : EmailRow → Bool} :
    ∀ (msgs : List EmailData) (sess sess2 : Session),
      processLoop uid ai pf sess msgs = .ok sess2 →
      sess2.committed = sess.committed ∧
      ∃ ext, sess2.pendingEmails = sess.pendingEmails ++ ext := by
  intro msgs
  induction msgs with
  | nil =>
    intro sess sess2 h
    have h2 : Except.ok (ε := FlushError) sess = .ok sess2 := h
    simp only [Except.ok.injEq] at h2
    subst h2
    exact ⟨rfl, [], by simp⟩
  | cons e rest ih =>
    intro sess sess2 h
    rw [processLoop_cons] at h
    split at h
    · exact ih sess sess2 h
    · split at h
      · exact ih sess sess2 h
      · split at h
        · simp at h
        · split at h
          · simp at h
          · rename_i h1 x vc heq h2 h3
            obtain ⟨hc, ext, hp⟩ := ih _ _ h
            refine ⟨hc,
              ({ mkEmailRow uid sess.nextId e vc with processed := true } :: ext),
              ?_⟩
            rw [hp]
            simp [insertSession]

/-- After a successful run, every fetched message is either keyed in the
final visible rows or fails content validation. -/
theorem processLoop_handles {uid : Nat}
    {ai : String → String → String → List TaskOut} {pf : EmailRow → Bool} :
    ∀ (msgs : List EmailData) (sess sess2 : Session),
      processLoop uid ai pf sess msgs = .ok sess2 →
      ∀ m ∈ msgs,
        emailKeyIn uid m.gmail_id sess2.visibleEmails = true ∨
        ∃ err, validate_email_content m.subject m.body = .error err := by
  intro msgs
  induction msgs with
  | nil =>
    intro sess sess2 _ m hm
    simp at hm
  | cons e rest ih =>
    intro sess sess2 h m hm
    have hmono : ∀ (s1 : Session), s1.committed = sess.committed →
        (∃ ext, s1.pendingEmails = sess.pendingEmails ++ ext) →
        emailKeyIn uid m.gmail_id sess.visibleEmails = true →
        emailKeyIn uid m.gmail_id s1.visibleEmails = true := by
      intro s1 hc hex hk
      obtain ⟨ext, hp⟩ := hex
      unfold emailKeyIn Session.visibleEmails at hk ⊢
      rw [hc, hp, ← List.append_assoc, List.any_append, Bool.or_eq_true]
      exact Or.inl hk
    rw [processLoop_cons] at h
    rcases List.mem_cons.mp hm with hme | hmr
    · subst hme
      split at h
      · rename_i hk
        obtain ⟨hc, hext⟩ := processLoop_extends rest _ _ h
        exact Or.inl (hmono sess2 hc hext hk)
      · split at h
        · rename_i err herr
          exact Or.inr ⟨err, herr⟩
        · split at h
          · simp at h
          · split at h
            · simp at h
            · rename_i vc _ _ _
              obtain ⟨hc, hext⟩ := processLoop_extends rest _ _ h
              left
              unfold emailKeyIn Session.visibleEmails
              rw [hc]
              obtain ⟨ext, hp⟩ := hext
              rw [hp]
              show ((insertSession uid ai sess m vc).committed.emails ++
                  ((insertSession uid ai sess m vc).pendingEmails ++ ext)).any _ = true
              rw [List.any_eq_true]
              refine ⟨{ mkEmailRow uid sess.nextId m vc with processed := true },
                ?_, by simp [mkEmailRow]⟩
              simp [insertSession]
    · split at h
      · exact ih _ _ h m hmr
      · split at h
        · exact ih _ _ h m hmr
        · split at h
          · simp at h
          · split at h
            · simp at h
            · exact ih _ _ h m hmr

/-- Starting from a fresh session over `db`, a run in which every
message is already keyed or invalid is a complete no-op. -/
theorem processLoop_noop {uid : Nat}
    {ai : String → String → String → List TaskOut} {pf : EmailRow → Bool} :
    ∀ (msgs : List EmailData) (db : DB),
      (∀ m ∈ msgs,
        emailKeyIn uid m.gmail_id db.emails = true ∨
        ∃ err, validate_email_content m.subject m.body = .error err) →
      processLoop uid ai pf ⟨db, [], []⟩ msgs = .ok ⟨db, [], []⟩ := by
  intro msgs
  induction msgs with
  | nil => intro db _; rfl
  | cons e rest ih =>
    intro db h
    rw [processLoop_cons]
    have hvis : (Session.mk db [] []).visibleEmails = db.emails := by
      simp [Session.visibleEmails]
    rcases h e (by simp) with hk | ⟨err, herr⟩
    · rw [if_pos (by rw [hvis]; exact hk)]
      exact ih db (fun m hm => h m (by simp [hm]))
    · by_cases hk2 : (Session.mk db [] []).visibleEmails.any
          (fun r => r.gmail_id = e.gmail_id && r.user_id = uid) = true
      · rw [if_pos hk2]
        exact ih db (fun m hm => h m (by simp [hm]))
      · rw [if_neg hk2, herr]
        exact ih db (fun m hm => h m (by simp [hm]))

theorem commit_empty (d : DB) : Session.commit ⟨d, [], []⟩ = d := by
  cases d with
  | mk n es ts => simp [Session.commit, Session.nextId]

theorem process_emails_run (uid : Nat)
    (ai : String → String → String → List TaskOut) (pf : EmailRow → Bool)
    (db : DB) (msgs : List EmailData) :
    process_emails true true uid (.ok msgs) ai pf db =
      match processLoop uid ai pf ⟨db, [], []⟩ msgs with
      | .ok sess =>
        (sess.commit, ⟨200, [("message", "Emails processed successfully")]⟩)
      | .error fe => (db, ⟨500, [("error", fe.pyStr)]⟩) := rfl

/-! ### C1 — idempotent ingestion -/

/-- C1: running the ingestion route twice on the same fetched set leaves
exactly the persisted Email and Task rows of a single run (for every
user, every extraction function, every failure pattern and every list
of fetched messages, n ≥ 0); and a message whose `(user_id, gmail_id)`
pair is already visible is skipped as a complete no-op. -/
theorem c1_ingestion_idempotent :
    (∀ (uid : Nat) (ai : String → String → String → List TaskOut)
        (pf : EmailRow → Bool) (db : DB) (msgs : List EmailData),
      (process_emails true true uid (.ok msgs) ai pf
          (process_emails true true uid (.ok msgs) ai pf db).1).1 =
        (process_emails true true uid (.ok msgs) ai pf db).1)
    ∧ (∀ (uid : Nat) (ai : String → String → String → List TaskOut)
        (pf : EmailRow → Bool) (sess : Session) (e : EmailData)
        (rest : List EmailData),
      emailKeyIn uid e.gmail_id sess.visibleEmails = true →
      processLoop uid ai pf sess (e :: rest) =
        processLoop uid ai pf sess rest) := by
  constructor
  · intro uid ai pf db msgs
    cases h : processLoop uid ai pf ⟨db, [], []⟩ msgs with
    | error fe =>
      have h1 : process_emails true true uid (.ok msgs) ai pf db =
          (db, ⟨500, [("error", fe.pyStr)]⟩) := by
        rw [process_emails_run, h]
      rw [h1]
      show (process_emails true true uid (.ok msgs) ai pf db).1 = db
      rw [h1]
    | ok sess2 =>
      have h1 : process_emails true true uid (.ok msgs) ai pf db =
          (sess2.commit,
            ⟨200, [("message", "Emails processed successfully")]⟩) := by
        rw [process_emails_run, h]
      have hnoop : processLoop uid ai pf ⟨sess2.commit, [], []⟩ msgs =
          .ok ⟨sess2.commit, [], []⟩ := by
        apply processLoop_noop
        intro m hm
        rcases processLoop_handles msgs _ _ h m hm with hk | he
        · exact Or.inl hk
        · exact Or.inr he
      have h2 : process_emails true true uid (.ok msgs) ai pf sess2.commit =
          (Session.commit ⟨sess2.commit, [], []⟩,
            ⟨200, [("message", "Emails processed successfully")]⟩) := by
        rw [process_emails_run, hnoop]
      rw [h1]
      show (process_emails true true uid (.ok msgs) ai pf sess2.commit).1 =
        sess2.commit
      rw [h2]
      show Session.commit ⟨sess2.commit, [], []⟩ = sess2.commit
      exact commit_empty _
  · intro uid ai pf sess e rest hk
    unfold emailKeyIn at hk
    rw [processLoop_cons, if_pos hk]

/-- Witness for C1: a message whose `(user_id, gmail_id)` pair is already
persisted (user 1, `"g"`) is a no-op for the loop. -/
theorem c1_ingestion_idempotent_witness :
    processLoop 1 (fun _ _ _ => []) (fun _ => false) ⟨dbUser1, [], []⟩
        [ceMsg "g"] =
      processLoop 1 (fun _ _ _ => []) (fun _ => false) ⟨dbUser1, [], []⟩ [] :=
  c1_ingestion_idempotent.2 1 _ _ _ (ceMsg "g") [] (by decide)

/-! ### C2 — atomicity granularity -/

/-- C2 counterexample: with two valid fetched messages and a storage
failure on the second flush, the first message — persisted earlier in
the same run — is rolled back too: the route answers 500 and the
database still has no rows, contradicting per-message atomicity and
continuation. -/
theorem c2_counterexample :
    process_emails true true 1 (.ok [ceMsg "g1", ceMsg "g2"]) (fun _ _ _ => [])
        (fun r => r.gmail_id == "g2") ⟨0, [], []⟩ =
      (⟨0, [], []⟩, ⟨500, [("error", "storage failure")]⟩) := by
  rfl

/-- C2 amended: persistence is whole-run atomic, not message-level: the
run commits once after the loop, so either some flush fails and the
route answers 500 with the database exactly as before the run (all
earlier message-units of the run rolled back, no continuation), or the
whole run succeeds with 200 and the rows of the run appended in one
commit. -/
theorem c2_amended_whole_run_atomic :
    ∀ (uid : Nat) (ai : String → String → String → List TaskOut)
      (pf : EmailRow → Bool) (db : DB) (msgs : List EmailData),
      ((process_emails true true uid (.ok msgs) ai pf db).2.status = 500 ∧
        (process_emails true true uid (.ok msgs) ai pf db).1 = db) ∨
      ((process_emails true true uid (.ok msgs) ai pf db).2.status = 200 ∧
        ∃ extraE extraT,
          (process_emails true true uid (.ok msgs) ai pf db).1 =
            { nextEmailId := db.nextEmailId + extraE.length,
              emails := db.emails ++ extraE,
              tasks := db.tasks ++ extraT }) := by
  intro uid ai pf db msgs
  cases h : processLoop uid ai pf ⟨db, [], []⟩ msgs with
  | error fe =>
    left
    have h1 : process_emails true true uid (.ok msgs) ai pf db =
        (db, ⟨500, [("error", fe.pyStr)]⟩) := by
      rw [process_emails_run, h]
    rw [h1]
    exact ⟨rfl, rfl⟩
  | ok sess2 =>
    right
    obtain ⟨hc, ext, hp⟩ := processLoop_extends msgs _ _ h
    have h1 : process_emails true true uid (.ok msgs) ai pf db =
        (sess2.commit,
          ⟨200, [("message", "Emails processed successfully")]⟩) := by
      rw [process_emails_run, h]
    rw [h1]
    refine ⟨rfl, sess2.pendingEmails, sess2.pendingTasks, ?_⟩
    show sess2.commit = _
    unfold Session.commit Session.nextId
    rw [hc]

/-! ### C10 — global uniqueness of the provider message id -/

theorem processLoop_pairwise {uid : Nat}
    {ai : String → String → String → List TaskOut} {pf : EmailRow → Bool} :
    ∀ (msgs : List EmailData) (sess sess2 : Session),
      processLoop uid ai pf sess msgs = .ok sess2 →
      sess.visibleEmails.Pairwise (fun a b => a.gmail_id ≠ b.gmail_id) →
      sess2.visibleEmails.Pairwise (fun a b => a.gmail_id ≠ b.gmail_id) := by
  intro msgs
  induction msgs with
  | nil =>
    intro sess sess2 h hpw
    have h2 : Except.ok (ε := FlushError) sess = .ok sess2 := h
    simp only [Except.ok.injEq] at h2
    subst h2
    exact hpw
  | cons e rest ih =>
    intro sess sess2 h hpw
    rw [processLoop_cons] at h
    split at h
    · exact ih _ _ h hpw
    · split at h
      · exact ih _ _ h hpw
      · split at h
        · simp at h
        · split at h
          · simp at h
          · rename_i h1 x vc heq hq hpf
            refine ih _ _ h ?_
            have hvis : (insertSession uid ai sess e vc).visibleEmails =
                sess.visibleEmails ++
                  [{ mkEmailRow uid sess.nextId e vc with processed := true }] := by
              simp [insertSession, Session.visibleEmails, List.append_assoc]
            rw [hvis, List.pairwise_append]
            refine ⟨hpw, by simp, ?_⟩
            intro a ha b hb
            simp only [List.mem_singleton] at hb
            subst hb
            show a.gmail_id ≠ e.gmail_id
            intro hre
            exact hq (by
              rw [List.any_eq_true]
              exact ⟨a, ha, by simp [hre]⟩)

/-- C10: the schema's `unique=True` on `Email.gmail_id` is global across
users and ingestion preserves it (no two visible rows ever share a
gmail id, whatever their users); and because the route's duplicate
check filters by `(gmail_id, user_id)`, a second user ingesting a gmail
id already persisted by user 1 is not skipped by the check — the insert
hits the uniqueness constraint at flush time and the run aborts. -/
theorem c10_gmail_id_globally_unique :
    (∀ (uid : Nat) (ai : String → String → String → List TaskOut)
        (pf : EmailRow → Bool) (db : DB) (msgs : List EmailData),
      db.emails.Pairwise (fun a b => a.gmail_id ≠ b.gmail_id) →
      ((process_emails true true uid (.ok msgs) ai pf db).1).emails.Pairwise
        (fun a b => a.gmail_id ≠ b.gmail_id))
    ∧ process_emails true true 2 (.ok [ceMsg "g"]) (fun _ _ _ => [])
        (fun _ => false) dbUser1 =
      (dbUser1,
        ⟨500, [("error", "UNIQUE constraint failed: emails.gmail_id")]⟩) := by
  constructor
  · intro uid ai pf db msgs hpw
    cases h : processLoop uid ai pf ⟨db, [], []⟩ msgs with
    | error fe =>
      have h1 : process_emails true true uid (.ok msgs) ai pf db =
          (db, ⟨500, [("error", fe.pyStr)]⟩) := by
        rw [process_emails_run, h]
      rw [h1]
      exact hpw
    | ok sess2 =>
      have h1 : process_emails true true uid (.ok msgs) ai pf db =
          (sess2.commit,
            ⟨200, [("message", "Emails processed successfully")]⟩) := by
        rw [process_emails_run, h]
      rw [h1]
      have hpw0 : (Session.mk db [] []).visibleEmails.Pairwise
          (fun a b => a.gmail_id ≠ b.gmail_id) := by
        simpa [Session.visibleEmails] using hpw
      exact processLoop_pairwise msgs _ _ h hpw0
  · rfl

/-- Witness for C10: ingestion into an empty database keeps the global
uniqueness invariant. -/
theorem c10_gmail_id_globally_unique_witness :
    ((process_emails true true 1 (.ok [ceMsg "g1"]) (fun _ _ _ => [])
        (fun _ => false) ⟨0, [], []⟩).1).emails.Pairwise
      (fun a b => a.gmail_id ≠ b.gmail_id) :=
  c10_gmail_id_globally_unique.1 1 _ _ ⟨0, [], []⟩ [ceMsg "g1"]
    List.Pairwise.nil

end EmailTaskManager
